import Mathlib

set_option maxRecDepth 100000

/-!
Shallow embedding of the rust-http-server incremental HTTP/1.1 request
parser (src/headers.rs, src/request.rs, src/chunk_reader.rs).

Strings handled by the Rust code as `&str` are modelled as `List Char`
(Unicode scalar values); raw byte buffers (`&[u8]`, `Vec<u8>`) are
modelled as `List Nat` with each element < 256.  Byte offsets reported
by the Rust code (`str::find` returns byte indices, `parse` returns
consumed byte counts) are recovered as the UTF-8 byte length of the
consumed character prefix; every such offset produced by the code lies
on a character boundary, so slicing a `&str` at it corresponds to
dropping that many characters.
-/

/-- The Unicode White_Space property, the set recognised by Rust
`char::is_whitespace` (used by `str::trim` and `str::split_whitespace`). -/
def isRustWS (c : Char) : Bool :=
  decide ((9 ≤ c.toNat ∧ c.toNat ≤ 13) ∨ c.toNat = 32 ∨ c.toNat = 133 ∨ c.toNat = 160 ∨
    c.toNat = 5760 ∨ (8192 ≤ c.toNat ∧ c.toNat ≤ 8202) ∨ c.toNat = 8232 ∨
    c.toNat = 8233 ∨ c.toNat = 8239 ∨ c.toNat = 8287 ∨ c.toNat = 12288)

/-- Rust `str::trim_end`: drop trailing whitespace characters. -/
def trimRight (s : List Char) : List Char :=
  (s.reverse.dropWhile isRustWS).reverse

/-- Rust `str::trim`: drop leading and trailing whitespace characters. -/
def trim (s : List Char) : List Char :=
  trimRight (s.dropWhile isRustWS)

/-- Rust `s.find("\r\n")`: index of the first position where a carriage
return is immediately followed by a line feed.  The Rust call returns a
byte index; this returns the character index, and the byte index is the
UTF-8 length of the prefix of that many characters. -/
def findCRLF : List Char → Option Nat
  | [] => none
  | c :: rest =>
    if c = '\r' ∧ rest.head? = some '\n' then some 0
    else (findCRLF rest).map (· + 1)

/-- Rust `line.splitn(2, ':')` expressed as (part before the first colon,
optionally the part after it).  The second component is `none` exactly
when the input contains no colon. -/
def splitFirstColon : List Char → List Char × Option (List Char)
  | [] => ([], none)
  | c :: rest =>
    if c = ':' then ([], some rest)
    else
      let p := splitFirstColon rest
      (c :: p.1, p.2)

/-- Worker for `splitWhitespace`; the fuel only bounds the recursion and
is always sufficient because every emitted token is nonempty. -/
def swGo : Nat → List Char → List (List Char)
  | 0, _ => []
  | fuel + 1, s =>
    let s1 := s.dropWhile isRustWS
    match s1 with
    | [] => []
    | _ :: _ =>
      s1.takeWhile (fun c => !(isRustWS c)) ::
        swGo fuel (s1.dropWhile (fun c => !(isRustWS c)))

/-- Rust `str::split_whitespace`: the maximal nonempty runs of
non-whitespace characters, in order. -/
def splitWhitespace (s : List Char) : List (List Char) :=
  swGo (s.length + 1) s

/-- Number of bytes in the UTF-8 encoding of one scalar value. -/
def utf8ByteSize (c : Char) : Nat :=
  if c.toNat < 128 then 1
  else if c.toNat < 2048 then 2
  else if c.toNat < 65536 then 3
  else 4

/-- `str::len`: the byte length of the UTF-8 encoding of a string. -/
def byteLen (s : List Char) : Nat :=
  (s.map utf8ByteSize).sum

/-- The UTF-8 encoding of one scalar value. -/
def utf8EncodeChar (c : Char) : List Nat :=
  let n := c.toNat
  if n < 128 then [n]
  else if n < 2048 then [192 + n / 64, 128 + n % 64]
  else if n < 65536 then [224 + n / 4096, 128 + n / 64 % 64, 128 + n % 64]
  else [240 + n / 262144, 128 + n / 4096 % 64, 128 + n / 64 % 64, 128 + n % 64]

/-- `str::as_bytes`: the UTF-8 encoding of a string. -/
def utf8Encode (s : List Char) : List Nat :=
  (s.map utf8EncodeChar).flatten

/-- The byte contents of a Lean string literal, for concrete test data. -/
def strBytes (s : String) : List Nat :=
  utf8Encode s.data

/-- One scalar value of strict UTF-8: given a nonempty byte list,
either the leading sequence is a well-formed encoding — no
continuation-byte lead, no overlong form, no surrogate, nothing above
0x10FFFF, and all continuation bytes present — yielding the scalar
value and the number of bytes it occupies, or the input is rejected.
A missing continuation byte reads as the sentinel 300, which fails
every continuation-range test. -/
def utf8DecodeOne (l : List Nat) : Option (Nat × Nat) :=
  match l with
  | [] => none
  | b :: rest =>
    let b1 := rest.getD 0 300
    let b2 := rest.getD 1 300
    let b3 := rest.getD 2 300
    if b < 128 then some (b, 1)
    else if b < 194 then none
    else if b < 224 then
      if 128 ≤ b1 ∧ b1 < 192 then some ((b - 192) * 64 + (b1 - 128), 2) else none
    else if b < 240 then
      if (128 ≤ b1 ∧ b1 < 192) ∧ (128 ≤ b2 ∧ b2 < 192) ∧
          (b = 224 → 160 ≤ b1) ∧ (b = 237 → b1 < 160) then
        some ((b - 224) * 4096 + (b1 - 128) * 64 + (b2 - 128), 3)
      else none
    else if b < 245 then
      if (128 ≤ b1 ∧ b1 < 192) ∧ (128 ≤ b2 ∧ b2 < 192) ∧ (128 ≤ b3 ∧ b3 < 192) ∧
          (b = 240 → 144 ≤ b1) ∧ (b = 244 → b1 < 144) then
        some ((b - 240) * 262144 + (b1 - 128) * 4096 + (b2 - 128) * 64 + (b3 - 128), 4)
      else none
    else none

/-- Worker for `utf8Decode?`; the fuel only bounds the recursion and
`l.length` always suffices because every scalar occupies at least one
byte. -/
def utf8DecodeGo : Nat → List Nat → Option (List Char)
  | _, [] => some []
  | 0, _ :: _ => none
  | fuel + 1, b :: rest =>
    (utf8DecodeOne (b :: rest)).bind (fun p =>
      (utf8DecodeGo fuel ((b :: rest).drop p.2)).map (fun cs => Char.ofNat p.1 :: cs))

/-- Rust `std::str::from_utf8`: strict UTF-8 validation and decoding.
Rejects malformed input and (crucially for the chunked read loop) a
buffer that ends in the middle of a multi-byte sequence. -/
def utf8Decode? (l : List Nat) : Option (List Char) :=
  utf8DecodeGo l.length l

/-- ASCII lower-casing of one character.  Rust `str::to_lowercase` is
Unicode-aware, but every stored header key has passed the ASCII-only
field-name grammar, on which the two coincide. -/
def lowerChar (c : Char) : Char :=
  if 65 ≤ c.toNat ∧ c.toNat ≤ 90 then Char.ofNat (c.toNat + 32) else c

/-- `str::to_lowercase` restricted to ASCII case mapping. -/
def lowerStr (s : String) : String :=
  String.mk (s.data.map lowerChar)

/-- The error values the program can produce.  The Rust code reports all
of them through `io::Error` with a distinguishing message string; each
constructor corresponds to one such message. -/
inductive Err
  /-- request.rs: "invalid UTF-8" (whole-buffer decode in the read loop) -/
  | invalidUtf8
  /-- headers.rs: "Unable to decode data as UTF-8 string" -/
  | headerInvalidUtf8
  /-- headers.rs: "Invalid header format: expected Key: Value" -/
  | invalidHeaderFormat
  /-- request.rs: "EOF before request complete" -/
  | prematureEof
  /-- request.rs: "missing method" -/
  | missingMethod
  /-- request.rs: "unsupported method" -/
  | unsupportedMethod
  /-- request.rs: "missing request target" -/
  | missingRequestTarget
  /-- request.rs: "missing or invalid http version" -/
  | missingOrInvalidHttpVersion
  /-- request.rs: "too many parts in request line" -/
  | tooManyParts
  deriving DecidableEq, Repr

/-- headers.rs `is_valid_field_name`: the regex
`[A-Za-z0-9!#$%&()-like token set]+` — digits, ASCII letters, and the
fifteen punctuation characters of the HTTP token grammar (codes
33 35 36 37 38 39 42 43 45 46 94 95 96 124 126). -/
def isTokenChar (c : Char) : Bool :=
  decide ((48 ≤ c.toNat ∧ c.toNat ≤ 57) ∨ (65 ≤ c.toNat ∧ c.toNat ≤ 90) ∨
    (97 ≤ c.toNat ∧ c.toNat ≤ 122) ∨ c.toNat = 33 ∨ c.toNat = 35 ∨ c.toNat = 36 ∨
    c.toNat = 37 ∨ c.toNat = 38 ∨ c.toNat = 39 ∨ c.toNat = 42 ∨ c.toNat = 43 ∨
    c.toNat = 45 ∨ c.toNat = 46 ∨ c.toNat = 94 ∨ c.toNat = 95 ∨ c.toNat = 96 ∨
    c.toNat = 124 ∨ c.toNat = 126)

/-- headers.rs `Headers::is_valid_field_name`: one or more token chars. -/
def isValidFieldName (s : List Char) : Bool :=
  !s.isEmpty && s.all isTokenChar

/-- headers.rs `struct Headers(HashMap<String, String>)`, modelled as an
association list with unique keys (the iteration order of the Rust
HashMap is irrelevant: every observation below goes through `get`). -/
structure Headers where
  entries : List (String × String)
  deriving DecidableEq, Repr

/-- headers.rs `Headers::new`. -/
def Headers.new : Headers := ⟨[]⟩

/-- headers.rs `Headers::get`: lower-case the query and look it up. -/
def Headers.get (h : Headers) (key : String) : Option String :=
  (h.entries.find? (fun p => p.1 = lowerStr key)).map (fun p => p.2)

/-- headers.rs `self.0.entry(field_name)`: insert a fresh key at the
end, or append the separator and the new value to an existing entry. -/
def Headers.insertField (h : Headers) (k v : String) : Headers :=
  if (h.entries.find? (fun p => p.1 = k)).isSome then
    ⟨h.entries.map (fun p => if p.1 = k then (p.1, p.2 ++ ", " ++ v) else p)⟩
  else ⟨h.entries ++ [(k, v)]⟩

/-- The body of headers.rs `Headers::parse` after the UTF-8 decode, on
the decoded characters.  Result: (new map, consumed bytes, consumed
characters, done flag, error).  The Rust function returns the byte
count; the character count is the boundary witness that byte count
refers to (the code only ever slices at such boundaries). -/
def Headers.parseChars (h : Headers) (s : List Char) :
    Headers × Nat × Nat × Bool × Option Err :=
  match findCRLF s with
  | none => (h, 0, 0, false, none)
  | some n =>
    if n = 0 then (h, 2, 2, true, none)
    else
      let line := trim (s.take n)
      let p := splitFirstColon line
      match p.2 with
      | none => (h, 0, 0, false, some .invalidHeaderFormat)
      | some v0 =>
        if isValidFieldName p.1 then
          (h.insertField (lowerStr (String.mk p.1)) (String.mk (trim v0)),
            byteLen (s.take n) + 2, n + 2, false, none)
        else (h, 0, 0, false, some .invalidHeaderFormat)

/-- headers.rs `Headers::parse(&mut self, data: &[u8])`: decode the
bytes, then handle at most one header line.  Result: (new map, consumed
bytes, done flag, error); the map replaces the `&mut self` mutation. -/
def Headers.parse (h : Headers) (data : List Nat) :
    Headers × Nat × Bool × Option Err :=
  match utf8Decode? data with
  | none => (h, 0, false, some .headerInvalidUtf8)
  | some s =>
    let r := h.parseChars s
    (r.1, r.2.1, r.2.2.2.1, r.2.2.2.2)

instance {ε α : Type} [DecidableEq ε] [DecidableEq α] : DecidableEq (Except ε α) :=
  fun a b =>
    match a, b with
    | .ok x, .ok y => if h : x = y then isTrue (by rw [h]) else isFalse (by simp [h])
    | .error x, .error y => if h : x = y then isTrue (by rw [h]) else isFalse (by simp [h])
    | .ok _, .error _ => isFalse (by simp)
    | .error _, .ok _ => isFalse (by simp)

/-- request.rs `struct RequestLine` (field order as in the source). -/
structure RequestLine where
  http_version : String
  request_target : String
  method : String
  deriving DecidableEq, Repr

/-- request.rs `enum RequestState`. -/
inductive RequestState
  | parsingRequestLine
  | parsingHeaders
  | done
  deriving DecidableEq, Repr

/-- request.rs `struct Request`. -/
structure Request where
  request_line : Option RequestLine
  headers : Headers
  state : RequestState
  deriving DecidableEq, Repr

/-- request.rs `Request::new`. -/
def Request.new : Request :=
  ⟨none, Headers.new, .parsingRequestLine⟩

/-- request.rs `parse_request_line`: find the CRLF, split the line on
whitespace, and read off method, target and version.  Result on
success: (consumed bytes, consumed characters, optional line); the
character count is the boundary the byte count refers to.  The error
order follows the source exactly: missing method, then the method
match, then missing target, then the combined missing-or-invalid
version check (`parts.next().and_then(strip of the HTTP marker)`),
then the extra-token check. -/
def parseRequestLine (s : List Char) : Except Err (Nat × Nat × Option RequestLine) :=
  match findCRLF s with
  | none => .ok (0, 0, none)
  | some n =>
    let lineChars := s.take n
    match splitWhitespace lineChars with
    | [] => .error .missingMethod
    | m :: rest =>
      if m = "GET".data ∨ m = "POST".data then
        match rest with
        | [] => .error .missingRequestTarget
        | t :: rest2 =>
          match rest2 with
          | [] => .error .missingOrInvalidHttpVersion
          | v :: rest3 =>
            if "HTTP/".data.isPrefixOf v then
              match rest3 with
              | [] => .ok (byteLen lineChars + 2, n + 2,
                  some ⟨String.mk (v.drop 5), String.mk t, String.mk m⟩)
              | _ :: _ => .error .tooManyParts
            else .error .missingOrInvalidHttpVersion
      else .error .unsupportedMethod

/-- request.rs `Request::parse_single`: one step of the state machine.
Result on success: (new request, consumed bytes, consumed characters).
In the `ParsingHeaders` state the source passes `data.as_bytes()` to
`Headers::parse`; re-encoding a decoded string decodes back to itself,
so the step works on the characters directly. -/
def Request.parseSingle (req : Request) (data : List Char) :
    Except Err (Request × Nat × Nat) :=
  match req.state with
  | .parsingRequestLine =>
    match parseRequestLine data with
    | .error e => .error e
    | .ok (nb, nc, some line) =>
      .ok ({ req with request_line := some line, state := .parsingHeaders }, nb, nc)
    | .ok (nb, nc, none) => .ok (req, nb, nc)
  | .parsingHeaders =>
    let r := req.headers.parseChars data
    match r.2.2.2.2 with
    | some e => .error e
    | none =>
      .ok
        ({ req with
            headers := (r.1)
            state := if r.2.2.2.1 then .done else req.state },
          r.2.1, r.2.2.1)
  | .done => .ok (req, 0, 0)

/-- The while loop of request.rs `Request::parse`: keep stepping on the
unconsumed tail while the state is not `Done` and bytes remain, and
stop early when a step consumes nothing.  `tc`/`tb` are the characters
and bytes consumed so far; the fuel only bounds the recursion and
`data.length + 1` always suffices because every continuing step
consumes at least one character. -/
def Request.parseGo : Nat → Request → List Char → Nat → Nat → Except Err (Request × Nat)
  | 0, req, _, _, tb => .ok (req, tb)
  | fuel + 1, req, data, tc, tb =>
    if req.state ≠ .done ∧ tb < byteLen data then
      match req.parseSingle (data.drop tc) with
      | .error e => .error e
      | .ok (req2, nb, nc) =>
        if nb = 0 then .ok (req2, tb)
        else Request.parseGo fuel req2 data (tc + nc) (tb + nb)
    else .ok (req, tb)

/-- request.rs `Request::parse`: total bytes consumed, plus the updated
request standing in for the `&mut self` mutation. -/
def Request.parse (req : Request) (data : List Char) : Except Err (Request × Nat) :=
  Request.parseGo (data.length + 1) req data 0 0

/-- The loop of request.rs `request_from_reader`.  The reader is
modelled as the list of successive `read` results (each at most the
8-byte scratch buffer in size for a real reader; nothing below depends
on that bound): an empty chunk or an exhausted list is the `n == 0`
end-of-stream case.  Each iteration appends the chunk to the growable
buffer, decodes the ENTIRE buffer (failure is the "invalid UTF-8"
error), feeds it to `Request::parse`, drains the consumed bytes, and
returns the request once its state is `Done`. -/
def requestFromReaderGo : Request → List Nat → List (List Nat) → Except Err Request
  | _, _, [] => .error .prematureEof
  | req, buf, c :: cs =>
    if c.length = 0 then .error .prematureEof
    else
      let buf2 := buf ++ c
      match utf8Decode? buf2 with
      | none => .error .invalidUtf8
      | some s =>
        match req.parse s with
        | .error e => .error e
        | .ok (req2, consumed) =>
          if req2.state = .done then .ok req2
          else requestFromReaderGo req2 (buf2.drop consumed) cs

/-- request.rs `request_from_reader`. -/
def requestFromReader (chunks : List (List Nat)) : Except Err Request :=
  requestFromReaderGo Request.new [] chunks

/-- Worker for `readChunks`; fuel `data.length` suffices for any
positive chunk size. -/
def readChunksGo : Nat → List Nat → Nat → List (List Nat)
  | 0, _, _ => []
  | fuel + 1, data, size =>
    match data with
    | [] => []
    | _ :: _ =>
      let n := min (min size data.length) 8
      data.take n :: readChunksGo fuel (data.drop n) size

/-- chunk_reader.rs `ChunkReader` driven through the 8-byte scratch
buffer of `request_from_reader`: the sequence of `read` results when
the fixed data is served `size` bytes at a time, each read further
capped at the 8 bytes of room the caller offers. -/
def readChunks (data : List Nat) (size : Nat) : List (List Nat) :=
  readChunksGo data.length data size

/-- U+1F604, the smiling emoji used by the repository's own header
test; its UTF-8 encoding is the four bytes 240 159 152 132. -/
def emojiChar : Char := Char.ofNat 128516

/-- A valid request whose header value is a four-byte UTF-8 character:
`GET / HTTP/1.1`, then `E: <emoji>`, then the terminating empty line.
The emoji occupies byte positions 19 to 22 of the stream. -/
def emojiRequestBytes : List Nat :=
  utf8Encode ("GET / HTTP/1.1\r\nE: ".data ++ [emojiChar] ++ "\r\n\r\n".data)

/-- One raw header line `name: value` followed by CRLF, as bytes. -/
def headerLineBytes (name v : List Char) : List Nat :=
  utf8Encode (name ++ ':' :: ' ' :: v ++ '\r' :: '\n' :: [])

/-- Feed a sequence of raw header lines, all with the same field name,
through `Headers.parse`, one complete line per call (the repository's
own repeated-header test drives `parse` the same way). -/
def feedLines (h : Headers) (name : List Char) (vs : List (List Char)) : Headers :=
  vs.foldl (fun h v => (h.parse (headerLineBytes name v)).1) h

/-- `acc, v1, v2, ...` joined with the literal separator `", "`, the
accumulation the header map performs on repeated field names. -/
def joinVals (acc : String) : List (List Char) → String
  | [] => acc
  | v :: vs => joinVals (acc ++ ", " ++ String.mk v) vs

/-- A request already in the terminal state, for exercising the
`Done` no-op transition. -/
def doneRequest : Request :=
  ⟨some ⟨"1.1", "/", "GET"⟩, ⟨[("host", "localhost:42069")]⟩, .done⟩

/-- The read results of a small complete request served 3 bytes at a
time (one of the chunk sizes the repository tests use). -/
def sampleChunks : List (List Nat) :=
  readChunks (strBytes "GET / HTTP/1.1\r\nHost: localhost:42069\r\n\r\n") 3

/-- The parse of `sampleChunks`, written out. -/
def sampleParsed : Request :=
  ⟨some ⟨"1.1", "/", "GET"⟩, ⟨[("host", "localhost:42069")]⟩, .done⟩

/-! ### UTF-8 encode/decode lemmas -/

theorem utf8DecodeOne_one_le (l : List Nat) (cp k : Nat)
    (h : utf8DecodeOne l = some (cp, k)) : 1 ≤ k := by
  match l with
  | [] => simp [utf8DecodeOne] at h
  | b :: rest =>
    simp only [utf8DecodeOne] at h
    split_ifs at h <;> simp_all <;> omega

theorem utf8DecodeGo_nil (f : Nat) : utf8DecodeGo f [] = some [] := by
  cases f <;> rfl

theorem utf8DecodeGo_fuel (f : Nat) :
    ∀ l : List Nat, l.length ≤ f → utf8DecodeGo f l = utf8DecodeGo l.length l := by
  induction f using Nat.strong_induction_on with
  | _ f ih =>
    intro l hl
    cases l with
    | nil => rw [utf8DecodeGo_nil, utf8DecodeGo_nil]
    | cons b rest =>
      cases f with
      | zero => simp at hl
      | succ f =>
        simp only [List.length_cons] at hl
        rw [utf8DecodeGo, show (b :: rest).length = rest.length + 1 from rfl, utf8DecodeGo]
        cases hone : utf8DecodeOne (b :: rest) with
        | none => rfl
        | some p =>
          obtain ⟨cp, k⟩ := p
          have hk := utf8DecodeOne_one_le _ _ _ hone
          have hdrop : ((b :: rest).drop k).length ≤ rest.length := by
            simp [List.length_drop]; omega
          simp only [Option.some_bind]
          rw [ih f (by omega) _ (by omega), ih rest.length (by omega) _ hdrop]

theorem utf8Decode?_cons (b : Nat) (rest : List Nat) :
    utf8Decode? (b :: rest) =
      (utf8DecodeOne (b :: rest)).bind (fun p =>
        (utf8Decode? ((b :: rest).drop p.2)).map (fun cs => Char.ofNat p.1 :: cs)) := by
  show utf8DecodeGo (rest.length + 1) (b :: rest) = _
  rw [utf8DecodeGo]
  cases hone : utf8DecodeOne (b :: rest) with
  | none => rfl
  | some p =>
    obtain ⟨cp, k⟩ := p
    have hk := utf8DecodeOne_one_le _ _ _ hone
    simp only [Option.some_bind]
    rw [utf8DecodeGo_fuel rest.length _ (by simp [List.length_drop]; omega)]
    rfl

theorem utf8Decode?_encodeChar (c : Char) (r : List Nat) :
    utf8Decode? (utf8EncodeChar c ++ r) = (utf8Decode? r).map (fun cs => c :: cs) := by
  have hv : c.toNat < 55296 ∨ (57343 < c.toNat ∧ c.toNat < 1114112) := c.valid
  have hofnat := Char.ofNat_toNat c
  rw [utf8EncodeChar]
  by_cases h1 : c.toNat < 128
  · rw [if_pos h1]
    simp only [List.cons_append, List.nil_append]
    rw [utf8Decode?_cons]
    have hone : utf8DecodeOne (c.toNat :: r) = some (c.toNat, 1) := by
      simp only [utf8DecodeOne]
      rw [if_pos h1]
    rw [hone]
    simp only [Option.some_bind, List.drop_succ_cons, List.drop_zero, hofnat]
  · by_cases h2 : c.toNat < 2048
    · rw [if_neg h1, if_pos h2]
      simp only [List.cons_append, List.nil_append]
      rw [utf8Decode?_cons]
      have hone : utf8DecodeOne ((192 + c.toNat / 64) :: (128 + c.toNat % 64) :: r) =
          some (c.toNat, 2) := by
        simp only [utf8DecodeOne, List.getD_cons_zero]
        rw [if_neg (by omega), if_neg (by omega), if_pos (by omega),
          if_pos (by constructor <;> omega)]
        have : (192 + c.toNat / 64 - 192) * 64 + (128 + c.toNat % 64 - 128) = c.toNat := by
          omega
        rw [this]
      rw [hone]
      simp only [Option.some_bind, List.drop_succ_cons, List.drop_zero, hofnat]
    · by_cases h3 : c.toNat < 65536
      · rw [if_neg h1, if_neg h2, if_pos h3]
        simp only [List.cons_append, List.nil_append]
        rw [utf8Decode?_cons]
        have hone : utf8DecodeOne ((224 + c.toNat / 4096) ::
            (128 + c.toNat / 64 % 64) :: (128 + c.toNat % 64) :: r) =
            some (c.toNat, 3) := by
          simp only [utf8DecodeOne, List.getD_cons_zero, List.getD_cons_succ]
          rw [if_neg (by omega), if_neg (by omega), if_neg (by omega), if_pos (by omega),
            if_pos (by refine ⟨by omega, by omega, ?_, ?_⟩ <;> intro hb <;> omega)]
          have : (224 + c.toNat / 4096 - 224) * 4096 + (128 + c.toNat / 64 % 64 - 128) * 64 +
              (128 + c.toNat % 64 - 128) = c.toNat := by omega
          rw [this]
        rw [hone]
        simp only [Option.some_bind, List.drop_succ_cons, List.drop_zero, hofnat]
      · rw [if_neg h1, if_neg h2, if_neg h3]
        simp only [List.cons_append, List.nil_append]
        rw [utf8Decode?_cons]
        have hone : utf8DecodeOne ((240 + c.toNat / 262144) ::
            (128 + c.toNat / 4096 % 64) :: (128 + c.toNat / 64 % 64) ::
            (128 + c.toNat % 64) :: r) = some (c.toNat, 4) := by
          simp only [utf8DecodeOne, List.getD_cons_zero, List.getD_cons_succ]
          rw [if_neg (by omega), if_neg (by omega), if_neg (by omega), if_neg (by omega),
            if_pos (by omega),
            if_pos (by refine ⟨by omega, by omega, by omega, ?_, ?_⟩ <;> intro hb <;> omega)]
          have : (240 + c.toNat / 262144 - 240) * 262144 +
              (128 + c.toNat / 4096 % 64 - 128) * 4096 +
              (128 + c.toNat / 64 % 64 - 128) * 64 + (128 + c.toNat % 64 - 128) = c.toNat := by
            omega
          rw [this]
        rw [hone]
        simp only [Option.some_bind, List.drop_succ_cons, List.drop_zero, hofnat]

theorem utf8Decode?_encode_append (s : List Char) (r : List Nat) :
    utf8Decode? (utf8Encode s ++ r) = (utf8Decode? r).map (fun cs => s ++ cs) := by
  induction s with
  | nil =>
    simp [utf8Encode]
  | cons c cs ih =>
    simp only [utf8Encode, List.map_cons, List.flatten_cons, List.append_assoc]
    rw [utf8Decode?_encodeChar]
    have : (utf8Encode cs ++ r) = ((cs.map utf8EncodeChar).flatten ++ r) := rfl
    rw [← this, ih]
    simp only [Option.map_map]
    rfl

theorem utf8Decode?_nil : utf8Decode? [] = some [] := rfl

theorem utf8Decode?_encode (s : List Char) : utf8Decode? (utf8Encode s) = some s := by
  have h := utf8Decode?_encode_append s []
  simpa [utf8Decode?_nil] using h


/-! ### findCRLF, dropWhile, trim and splitFirstColon lemmas -/

theorem findCRLF_cons (c : Char) (rest : List Char) :
    findCRLF (c :: rest) =
      if c = '\r' ∧ rest.head? = some '\n' then some 0
      else (findCRLF rest).map (· + 1) := rfl

theorem findCRLF_of_no_lf (l : List Char) (h : ∀ c ∈ l, c ≠ '\n') :
    findCRLF l = none := by
  induction l with
  | nil => rfl
  | cons c rest ih =>
    have hrest : findCRLF rest = none := ih (fun x hx => h x (List.mem_cons_of_mem _ hx))
    rw [findCRLF_cons, if_neg, hrest]
    · rfl
    · rintro ⟨-, hh⟩
      cases rest with
      | nil => simp at hh
      | cons d t =>
        simp only [List.head?_cons, Option.some.injEq] at hh
        exact h d (by simp) hh

theorem findCRLF_append_crlf (l r : List Char) (h : findCRLF l = none) :
    findCRLF (l ++ '\r' :: '\n' :: r) = some l.length := by
  induction l with
  | nil => rw [List.nil_append, findCRLF_cons, if_pos ⟨rfl, rfl⟩]; rfl
  | cons c t ih =>
    rw [findCRLF_cons] at h
    by_cases hc : c = '\r' ∧ t.head? = some '\n'
    · rw [if_pos hc] at h; cases h
    · rw [if_neg hc] at h
      have ht : findCRLF t = none := by
        cases hft : findCRLF t with
        | none => rfl
        | some k => rw [hft] at h; simp at h
      rw [List.cons_append, findCRLF_cons, if_neg, ih ht]
      · rfl
      · rintro ⟨hcr, hh⟩
        cases t with
        | nil => simp at hh
        | cons d t2 =>
          simp only [List.cons_append, List.head?_cons, Option.some.injEq] at hh
          exact hc ⟨hcr, by simp [hh]⟩

theorem findCRLF_append_none (x y : List Char) (hx : findCRLF x = none)
    (hy : findCRLF y = none) (hhead : y.head? ≠ some '\n') :
    findCRLF (x ++ y) = none := by
  induction x with
  | nil => simpa using hy
  | cons c t ih =>
    rw [findCRLF_cons] at hx
    by_cases hc : c = '\r' ∧ t.head? = some '\n'
    · rw [if_pos hc] at hx; cases hx
    · rw [if_neg hc] at hx
      have ht : findCRLF t = none := by
        cases hft : findCRLF t with
        | none => rfl
        | some k => rw [hft] at hx; simp at hx
      rw [List.cons_append, findCRLF_cons, if_neg, ih ht]
      · rfl
      · rintro ⟨hcr, hh⟩
        cases t with
        | nil => exact hhead (by simpa using hh)
        | cons d t2 =>
          simp only [List.cons_append, List.head?_cons, Option.some.injEq] at hh
          exact hc ⟨hcr, by simp [hh]⟩

theorem length_dropWhile_le' (p : Char → Bool) (l : List Char) :
    (List.dropWhile p l).length ≤ l.length := by
  induction l with
  | nil => simp
  | cons c t ih =>
    by_cases h : p c
    · simp [List.dropWhile, h]
      omega
    · simp [List.dropWhile, h]

theorem dropWhile_eq_self_of_length (p : Char → Bool) (l : List Char)
    (h : (List.dropWhile p l).length = l.length) : List.dropWhile p l = l := by
  induction l with
  | nil => simp
  | cons c t ih =>
    by_cases hc : p c
    · exfalso
      have hle := length_dropWhile_le' p t
      simp [List.dropWhile, hc] at h
      omega
    · simp [List.dropWhile, hc]

theorem head_false_of_dropWhile_eq (p : Char → Bool) (c : Char) (t : List Char)
    (h : List.dropWhile p (c :: t) = c :: t) : p c = false := by
  by_cases hc : p c
  · exfalso
    have hle := length_dropWhile_le' p t
    have hlen := congrArg List.length h
    simp [List.dropWhile, hc] at hlen
    omega
  · simpa using hc

theorem dropWhile_cons_false (p : Char → Bool) (c : Char) (l : List Char)
    (h : p c = false) : List.dropWhile p (c :: l) = c :: l := by
  simp [List.dropWhile, h]

theorem length_trimRight_le (x : List Char) : (trimRight x).length ≤ x.length := by
  rw [trimRight, List.length_reverse]
  calc (List.dropWhile isRustWS x.reverse).length
      ≤ x.reverse.length := length_dropWhile_le' _ _
    _ = x.length := List.length_reverse _

theorem trim_parts (v : List Char) (hv : trim v = v) :
    List.dropWhile isRustWS v = v ∧ trimRight v = v := by
  have hlen : (trim v).length = v.length := by rw [hv]
  have h2 : (trim v).length ≤ (List.dropWhile isRustWS v).length := by
    rw [trim]; exact length_trimRight_le _
  have h3 : (List.dropWhile isRustWS v).length ≤ v.length := length_dropWhile_le' _ _
  have hdw : List.dropWhile isRustWS v = v := dropWhile_eq_self_of_length _ _ (by omega)
  refine ⟨hdw, ?_⟩
  have heq : trim v = trimRight v := by rw [trim, hdw]
  rw [← heq, hv]

theorem splitFirstColon_append (k r : List Char) (hk : ∀ c ∈ k, c ≠ ':') :
    splitFirstColon (k ++ ':' :: r) = (k, some r) := by
  induction k with
  | nil => rw [List.nil_append, splitFirstColon, if_pos rfl]
  | cons c t ih =>
    rw [List.cons_append, splitFirstColon, if_neg (hk c (by simp))]
    have := ih (fun x hx => hk x (List.mem_cons_of_mem _ hx))
    simp only [this]

theorem isTokenChar_not_ws (c : Char) (h : isTokenChar c = true) : isRustWS c = false := by
  simp only [isTokenChar, decide_eq_true_eq] at h
  simp only [isRustWS, decide_eq_false_iff_not]
  omega

theorem isTokenChar_ne_lf (c : Char) (h : isTokenChar c = true) : c ≠ '\n' := by
  intro hc
  rw [hc] at h
  exact absurd h (by decide)

theorem isTokenChar_ne_colon (c : Char) (h : isTokenChar c = true) : c ≠ ':' := by
  intro hc
  rw [hc] at h
  exact absurd h (by decide)

/-! ### Concrete claim evaluations -/

/-- C1: the claim says a valid request whose header value contains a
multi-byte UTF-8 character parses successfully for EVERY positive
read-chunk size, the split character surviving intact.  The code
instead rejects the request whenever a read boundary falls inside the
character: with chunk size 1 the accumulated buffer ends with the
lead byte of the emoji, `std::str::from_utf8` rejects that incomplete
tail, and `request_from_reader` aborts with its invalid-UTF-8 error. -/
theorem c1_split_emoji_rejected :
    requestFromReader (readChunks emojiRequestBytes 1) = .error .invalidUtf8 := by decide

/-- C2: the claim says the parsed result is invariant across read-chunk
sizes 1, 3, 8, 50 and all-at-once for every valid request.  On this
request (emoji header value at byte positions 19 to 22) chunk size 8
parses successfully, while chunk size 1 aborts with the invalid-UTF-8
error, so the output does depend on the read granularity. -/
theorem c2_chunk_size_changes_result :
    requestFromReader (readChunks emojiRequestBytes 8) =
      .ok ⟨some ⟨"1.1", "/", "GET"⟩, ⟨[("e", String.mk [emojiChar])]⟩, .done⟩ ∧
    requestFromReader (readChunks emojiRequestBytes 1) = .error .invalidUtf8 :=
  ⟨by decide, by decide⟩

/-- C5: `parse_request_line` on `GET / HTTP/1.1` followed by CRLF
consumes 16 bytes and yields method GET, target /, version 1.1 (the
HTTP/ marker stripped). -/
theorem c5_request_line_example :
    parseRequestLine ("GET / HTTP/1.1\r\n".data) =
      .ok (16, 16, some ⟨"1.1", "/", "GET"⟩) := by decide

/-- C6: parsing `Host: localhost:42069` CRLF CRLF consumes 23 bytes on
the first call, is not done, reports no error, and stores the value
retrievable under the capitalised name; the second call on the
remaining CRLF consumes 2 bytes and reports done. -/
theorem c6_headers_example :
    Headers.parse Headers.new (strBytes "Host: localhost:42069\r\n\r\n") =
      (⟨[("host", "localhost:42069")]⟩, 23, false, none) ∧
    Headers.get ⟨[("host", "localhost:42069")]⟩ "Host" = some "localhost:42069" ∧
    Headers.parse ⟨[("host", "localhost:42069")]⟩ (strBytes "\r\n") =
      (⟨[("host", "localhost:42069")]⟩, 2, true, none) :=
  ⟨by decide, by decide, by decide⟩

/-- C8: a header line with whitespace between the field name and the
colon is rejected with the malformed-header-line error and consumes
nothing, while surrounding whitespace on a well-formed line is
accepted, the name and value stored trimmed (consumed count 19 covers
the whole line including its CRLF). -/
theorem c8_header_whitespace :
    Headers.parse Headers.new (strBytes "Host : value\r\n") =
      (Headers.new, 0, false, some .invalidHeaderFormat) ∧
    Headers.parse Headers.new (strBytes "   Host: value   \r\n") =
      (⟨[("host", "value")]⟩, 19, false, none) ∧
    Headers.get ⟨[("host", "value")]⟩ "Host" = some "value" :=
  ⟨by decide, by decide, by decide⟩

/-! ### C9: the Done state is a no-op -/

/-- C9: once a request has reached the `Done` state, `parse` on any
input consumes 0 bytes, reports no error, and leaves the request line,
header map, and state unchanged (the returned request is the input
request itself). -/
theorem c9_done_is_noop (req : Request) (data : List Char) (h : req.state = .done) :
    req.parse data = .ok (req, 0) := by
  rw [Request.parse, Request.parseGo, if_neg]
  intro hc
  exact hc.1 h

/-- Witness for C9 at a concrete terminal request and nonempty input. -/
theorem c9_witness : doneRequest.parse ("Accept: */*\r\n".data) = .ok (doneRequest, 0) :=
  c9_done_is_noop doneRequest _ rfl

/-! ### C10: Headers.parse mutates only on a successfully parsed line -/

/-- Every outcome of the character-level body of `Headers.parse`:
need-more-data, block terminator, malformed line, or one inserted
header line. -/
theorem headersParseChars_cases (h : Headers) (s : List Char) :
    h.parseChars s = (h, 0, 0, false, none) ∨
    h.parseChars s = (h, 2, 2, true, none) ∨
    h.parseChars s = (h, 0, 0, false, some .invalidHeaderFormat) ∨
    (∃ k v n, h.parseChars s =
      (h.insertField k v, byteLen (s.take n) + 2, n + 2, false, none)) := by
  unfold Headers.parseChars
  split
  · exact Or.inl rfl
  · split
    · exact Or.inr (Or.inl rfl)
    · dsimp only
      split
      · exact Or.inr (Or.inr (Or.inl rfl))
      · split
        · exact Or.inr (Or.inr (Or.inr ⟨_, _, _, rfl⟩))
        · exact Or.inr (Or.inr (Or.inl rfl))

/-- The byte-level `Headers.parse` in terms of `parseChars` when the
input decodes. -/
theorem headersParse_of_decode (h : Headers) (data : List Nat) (s : List Char)
    (hdec : utf8Decode? data = some s) :
    Headers.parse h data =
      ((h.parseChars s).1, (h.parseChars s).2.1,
        (h.parseChars s).2.2.2.1, (h.parseChars s).2.2.2.2) := by
  unfold Headers.parse
  rw [hdec]

/-- C10: whenever `Headers.parse` reports an error the consumed count
is 0 and the map is unchanged; when the decoded input holds no CRLF
the call returns exactly (unchanged map, 0, not done, no error); and
the map changes only on a call that parses one complete header line:
no error, a positive consumed count, and done = false. -/
theorem c10_headers_parse_frame (h : Headers) (data : List Nat) :
    ((Headers.parse h data).2.2.2 ≠ none →
      (Headers.parse h data).1 = h ∧ (Headers.parse h data).2.1 = 0) ∧
    (∀ s, utf8Decode? data = some s → findCRLF s = none →
      Headers.parse h data = (h, 0, false, none)) ∧
    ((Headers.parse h data).1 ≠ h →
      (Headers.parse h data).2.2.2 = none ∧ 0 < (Headers.parse h data).2.1 ∧
        (Headers.parse h data).2.2.1 = false) := by
  refine ⟨?_, ?_, ?_⟩
  · intro herr
    cases hdec : utf8Decode? data with
    | none =>
      unfold Headers.parse
      rw [hdec]
      exact ⟨rfl, rfl⟩
    | some s =>
      rw [headersParse_of_decode h data s hdec] at herr ⊢
      rcases headersParseChars_cases h s with hc | hc | hc | ⟨k, v, n, hc⟩ <;>
        rw [hc] at herr ⊢ <;> simp_all
  · intro s hdec hcrlf
    rw [headersParse_of_decode h data s hdec]
    unfold Headers.parseChars
    rw [hcrlf]
  · intro hmut
    cases hdec : utf8Decode? data with
    | none =>
      unfold Headers.parse at hmut
      rw [hdec] at hmut
      simp at hmut
    | some s =>
      rw [headersParse_of_decode h data s hdec] at hmut ⊢
      rcases headersParseChars_cases h s with hc | hc | hc | ⟨k, v, n, hc⟩ <;>
        rw [hc] at hmut ⊢ <;> simp_all

/-- Witness for C10 at concrete inputs: an error leaves the map alone,
and a CRLF-free tail consumes nothing. -/
theorem c10_witness :
    ((Headers.parse Headers.new (strBytes "Host : x\r\n")).2.2.2 ≠ none →
      (Headers.parse Headers.new (strBytes "Host : x\r\n")).1 = Headers.new ∧
      (Headers.parse Headers.new (strBytes "Host : x\r\n")).2.1 = 0) ∧
    Headers.parse Headers.new (strBytes "Host: partial") = (Headers.new, 0, false, none) :=
  ⟨(c10_headers_parse_frame Headers.new (strBytes "Host : x\r\n")).1,
    (c10_headers_parse_frame Headers.new (strBytes "Host: partial")).2.1
      ("Host: partial".data) (by decide) (by decide)⟩

/-! ### C3: Ok results are terminal and EOF surfaces PrematureEof -/

/-- One successful step of the state machine either produces a stored
request line, leaves the request untouched, or preserves the line while
starting from a state beyond the request line. -/
theorem parseSingle_ok_inv (req : Request) (d : List Char) (req2 : Request) (nb nc : Nat)
    (h : req.parseSingle d = .ok (req2, nb, nc)) :
    req2.request_line.isSome = true ∨ req2 = req ∨
      (req2.request_line = req.request_line ∧ req.state ≠ .parsingRequestLine) := by
  unfold Request.parseSingle at h
  split at h
  · split at h
    · cases h
    · simp only [Except.ok.injEq, Prod.mk.injEq] at h
      obtain ⟨h1, -⟩ := h
      left
      rw [← h1]
      rfl
    · simp only [Except.ok.injEq, Prod.mk.injEq] at h
      obtain ⟨h1, -⟩ := h
      right; left
      rw [← h1]
  · dsimp only at h
    split at h
    · cases h
    · simp only [Except.ok.injEq, Prod.mk.injEq] at h
      obtain ⟨h1, -⟩ := h
      right; right
      constructor
      · rw [← h1]
      · next hst _ _ =>
        rw [hst]
        simp
  · simp only [Except.ok.injEq, Prod.mk.injEq] at h
    obtain ⟨h1, -⟩ := h
    right; left
    rw [← h1]

/-- The parse loop transports the request-line invariant. -/
theorem parseGo_ok_inv : ∀ (fuel : Nat) (req : Request) (data : List Char) (tc tb : Nat)
    (req2 : Request) (n : Nat), Request.parseGo fuel req data tc tb = .ok (req2, n) →
    (req.state ≠ .parsingRequestLine → req.request_line.isSome = true) →
    (req2.state ≠ .parsingRequestLine → req2.request_line.isSome = true) := by
  intro fuel
  induction fuel with
  | zero =>
    intro req data tc tb req2 n h hinv
    simp only [Request.parseGo, Except.ok.injEq, Prod.mk.injEq] at h
    obtain ⟨h1, -⟩ := h
    rw [← h1]
    exact hinv
  | succ fuel ih =>
    intro req data tc tb req2 n h hinv
    rw [Request.parseGo] at h
    split_ifs at h with hc
    · split at h
      · cases h
      · next r2 nb nc heq =>
        have hstep : r2.state ≠ .parsingRequestLine → r2.request_line.isSome = true := by
          rcases parseSingle_ok_inv req _ r2 nb nc heq with hs | hs | ⟨hs1, hs2⟩
          · exact fun _ => hs
          · rw [hs]; exact hinv
          · intro _
            rw [hs1]
            exact hinv hs2
        split_ifs at h with hnb
        · simp only [Except.ok.injEq, Prod.mk.injEq] at h
          obtain ⟨h1, -⟩ := h
          rw [← h1]
          exact hstep
        · exact ih r2 data (tc + nc) (tb + nb) req2 n h hstep
    · simp only [Except.ok.injEq, Prod.mk.injEq] at h
      obtain ⟨h1, -⟩ := h
      rw [← h1]
      exact hinv

/-- `Request::parse` transports the request-line invariant. -/
theorem parse_ok_inv (req : Request) (data : List Char) (req2 : Request) (n : Nat)
    (h : req.parse data = .ok (req2, n))
    (hinv : req.state ≠ .parsingRequestLine → req.request_line.isSome = true) :
    req2.state ≠ .parsingRequestLine → req2.request_line.isSome = true :=
  parseGo_ok_inv (data.length + 1) req data 0 0 req2 n h hinv

/-- A successful run of the read loop ends in the `Done` state with a
stored request line, from any starting request satisfying the
invariant. -/
theorem rfrGo_ok : ∀ (chunks : List (List Nat)) (req : Request) (buf : List Nat) (r : Request),
    requestFromReaderGo req buf chunks = .ok r →
    (req.state ≠ .parsingRequestLine → req.request_line.isSome = true) →
    r.state = .done ∧ r.request_line.isSome = true := by
  intro chunks
  induction chunks with
  | nil =>
    intro req buf r h _
    cases h
  | cons c cs ih =>
    intro req buf r h hinv
    rw [requestFromReaderGo] at h
    split_ifs at h with hc
    dsimp only at h
    split at h
    · cases h
    · next s hdec =>
      split at h
      · cases h
      · next req2 consumed heq =>
        have hinv2 := parse_ok_inv req s req2 consumed heq hinv
        split_ifs at h with hdone
        · injection h with h1
          subst h1
          refine ⟨hdone, hinv2 ?_⟩
          rw [hdone]
          simp
        · exact ih req2 _ r h hinv2

/-- C3: whenever `request_from_reader` returns Ok the request is in the
terminal `Done` state with its request line present, and whenever the
source delivers a zero-byte read — an exhausted source or an empty
chunk — before completion, the result is exactly the PrematureEof
error, never a partially populated success. -/
theorem c3_eof_and_ok_shape :
    (∀ (chunks : List (List Nat)) (r : Request), requestFromReader chunks = .ok r →
      r.state = .done ∧ r.request_line.isSome = true) ∧
    (∀ (req : Request) (buf : List Nat),
      requestFromReaderGo req buf [] = .error .prematureEof) ∧
    (∀ (req : Request) (buf : List Nat) (cs : List (List Nat)),
      requestFromReaderGo req buf ([] :: cs) = .error .prematureEof) := by
  refine ⟨?_, fun req buf => rfl, fun req buf cs => rfl⟩
  intro chunks r h
  exact rfrGo_ok chunks Request.new [] r h (fun hne => absurd rfl hne)

/-- Witness for C3: the sample run parses to `sampleParsed`, which the
theorem then shows is terminal with its request line present. -/
theorem c3_witness : sampleParsed.state = .done ∧ sampleParsed.request_line.isSome = true :=
  c3_eof_and_ok_shape.1 sampleChunks sampleParsed (by decide)

/-! ### C4: request-line error taxonomy -/

/-- `parse_request_line` on a complete line, characterised by the
whitespace tokens of the part before the CRLF. -/
theorem parseRequestLine_eq (line rest : List Char) (hline : findCRLF line = none) :
    parseRequestLine (line ++ '\r' :: '\n' :: rest) =
      (match splitWhitespace line with
      | [] => .error .missingMethod
      | m :: ts =>
        if m = "GET".data ∨ m = "POST".data then
          match ts with
          | [] => .error .missingRequestTarget
          | t :: ts2 =>
            match ts2 with
            | [] => .error .missingOrInvalidHttpVersion
            | v :: ts3 =>
              if "HTTP/".data.isPrefixOf v then
                match ts3 with
                | [] => .ok (byteLen line + 2, line.length + 2,
                    some ⟨String.mk (v.drop 5), String.mk t, String.mk m⟩)
                | _ :: _ => .error .tooManyParts
              else .error .missingOrInvalidHttpVersion
        else .error .unsupportedMethod) := by
  unfold parseRequestLine
  rw [findCRLF_append_crlf line rest hline]
  dsimp only
  rw [List.take_left]

/-- C4 counterexample: the out-of-order line `/ GET HTTP/1.1` fails
with the unsupported-method error, not a wrong-token-count error, and
a valid-method line with a missing third token fails with the same
conflated error as one whose third token lacks the HTTP/ marker — the
claim attributes both of these to a distinct MalformedRequestLine
kind. -/
theorem c4_counterexample :
    parseRequestLine ("/ GET HTTP/1.1\r\n".data) = .error .unsupportedMethod ∧
    parseRequestLine ("GET /\r\n".data) = .error .missingOrInvalidHttpVersion ∧
    parseRequestLine ("GET / FTP/1.1\r\n".data) = .error .missingOrInvalidHttpVersion ∧
    Err.unsupportedMethod ≠ Err.missingMethod ∧
    Err.unsupportedMethod ≠ Err.missingRequestTarget ∧
    Err.unsupportedMethod ≠ Err.tooManyParts := by decide

/-- C4 amended: on a complete request line the code errors as follows.
No tokens: missing-method.  First token outside {GET, POST} (which
includes out-of-order lines such as `/ GET HTTP/1.1`): unsupported-
method.  Valid method but no second token: missing-request-target.
Valid method but no third token, or a third token lacking the literal
`HTTP/`: one conflated missing-or-invalid-http-version error.  A
fourth token (once the version check passed): too-many-parts.  These
five error values are pairwise distinct. -/
theorem c4_amended (line rest : List Char) (hline : findCRLF line = none) :
    (splitWhitespace line = [] →
      parseRequestLine (line ++ '\r' :: '\n' :: rest) = .error .missingMethod) ∧
    (∀ m ts, splitWhitespace line = m :: ts → ¬(m = "GET".data ∨ m = "POST".data) →
      parseRequestLine (line ++ '\r' :: '\n' :: rest) = .error .unsupportedMethod) ∧
    (∀ m, splitWhitespace line = [m] → (m = "GET".data ∨ m = "POST".data) →
      parseRequestLine (line ++ '\r' :: '\n' :: rest) = .error .missingRequestTarget) ∧
    (∀ m t, splitWhitespace line = [m, t] → (m = "GET".data ∨ m = "POST".data) →
      parseRequestLine (line ++ '\r' :: '\n' :: rest) =
        .error .missingOrInvalidHttpVersion) ∧
    (∀ m t v ts, splitWhitespace line = m :: t :: v :: ts →
      (m = "GET".data ∨ m = "POST".data) → ¬("HTTP/".data.isPrefixOf v) →
      parseRequestLine (line ++ '\r' :: '\n' :: rest) =
        .error .missingOrInvalidHttpVersion) ∧
    (∀ m t v w ts, splitWhitespace line = m :: t :: v :: w :: ts →
      (m = "GET".data ∨ m = "POST".data) → "HTTP/".data.isPrefixOf v →
      parseRequestLine (line ++ '\r' :: '\n' :: rest) = .error .tooManyParts) ∧
    [Err.missingMethod, Err.unsupportedMethod, Err.missingRequestTarget,
      Err.missingOrInvalidHttpVersion, Err.tooManyParts].Pairwise (· ≠ ·) := by
  rw [parseRequestLine_eq line rest hline]
  refine ⟨?_, ?_, ?_, ?_, ?_, ?_, by decide⟩
  · intro hsw
    rw [hsw]
  · intro m ts hsw hm
    rw [hsw]
    dsimp only
    rw [if_neg hm]
  · intro m hsw hm
    rw [hsw]
    dsimp only
    rw [if_pos hm]
  · intro m t hsw hm
    rw [hsw]
    dsimp only
    rw [if_pos hm]
  · intro m t v ts hsw hm hv
    rw [hsw]
    dsimp only
    rw [if_pos hm, if_neg hv]
  · intro m t v w ts hsw hm hv
    rw [hsw]
    dsimp only
    rw [if_pos hm, if_pos hv]

/-- Witness for C4 at the concrete line `PUT / HTTP/1.1`: a
syntactically valid token outside the supported set is rejected as
unsupported-method. -/
theorem c4_witness :
    parseRequestLine ("PUT / HTTP/1.1".data ++ '\r' :: '\n' :: []) =
      .error .unsupportedMethod :=
  (c4_amended ("PUT / HTTP/1.1".data) [] (by decide)).2.1 ("PUT".data)
    ["/".data, "HTTP/1.1".data] (by decide) (by decide)

/-! ### C7: repeated header fields accumulate comma-space joined values -/

/-- A valid field name consists of token characters and is nonempty. -/
theorem validFieldName_parts (name : List Char) (hn : isValidFieldName name = true) :
    name ≠ [] ∧ ∀ c ∈ name, isTokenChar c = true := by
  rw [isValidFieldName, Bool.and_eq_true, List.all_eq_true] at hn
  obtain ⟨h1, h2⟩ := hn
  refine ⟨?_, fun c hc => h2 c hc⟩
  intro hnil
  rw [hnil] at h1
  exact absurd h1 (by decide)

/-- Trimming a raw header line `name: value` with a valid name and an
already-trimmed nonempty value changes nothing. -/
theorem trim_header_line (name v : List Char) (hn : isValidFieldName name = true)
    (hv : trim v = v) (hne : v ≠ []) :
    trim (name ++ ':' :: ' ' :: v) = name ++ ':' :: ' ' :: v := by
  obtain ⟨hdw, htr⟩ := trim_parts v hv
  obtain ⟨hname_ne, hall⟩ := validFieldName_parts name hn
  obtain ⟨n0, nrest, hname⟩ := List.exists_cons_of_ne_nil hname_ne
  have h0 : isRustWS n0 = false :=
    isTokenChar_not_ws n0 (hall n0 (by rw [hname]; simp))
  obtain ⟨rh, rt, hrev, hrh⟩ : ∃ rh rt, v.reverse = rh :: rt ∧ isRustWS rh = false := by
    cases hv2 : v.reverse with
    | nil =>
      exact absurd (by simpa using congrArg List.reverse hv2) hne
    | cons rh rt =>
      refine ⟨rh, rt, rfl, ?_⟩
      have hdwr : List.dropWhile isRustWS v.reverse = v.reverse := by
        have h3 := congrArg List.reverse htr
        rw [trimRight, List.reverse_reverse] at h3
        exact h3
      rw [hv2] at hdwr
      exact head_false_of_dropWhile_eq _ _ _ hdwr
  have hrevL : (name ++ ':' :: ' ' :: v).reverse = rh :: (rt ++ [' ', ':'] ++ name.reverse) := by
    rw [List.reverse_append]
    simp [hrev]
  have htrL : trimRight (name ++ ':' :: ' ' :: v) = name ++ ':' :: ' ' :: v := by
    rw [trimRight, hrevL, dropWhile_cons_false _ _ _ hrh, ← hrevL, List.reverse_reverse]
  rw [trim, hname, List.cons_append, dropWhile_cons_false _ _ _ h0, ← List.cons_append,
    ← hname, htrL]

/-- Trimming the value part `[space]value` of a raw header line gives
back the already-trimmed value. -/
theorem trim_space_value (v : List Char) (hv : trim v = v) : trim (' ' :: v) = v := by
  obtain ⟨hdw, htr⟩ := trim_parts v hv
  rw [trim, List.dropWhile_cons]
  rw [show isRustWS ' ' = true from rfl]
  simp only [if_pos]
  rw [hdw]
  exact htr

/-- `Headers.parse` on one raw header line with a valid name and a
clean value: the line is consumed whole and the lower-cased name maps
to the trimmed value through the insert-or-append entry step. -/
theorem headersParse_line (h : Headers) (name v : List Char)
    (hn : isValidFieldName name = true)
    (hv : trim v = v) (hvn : findCRLF v = none) (hne : v ≠ []) :
    Headers.parse h (headerLineBytes name v) =
      (h.insertField (lowerStr (String.mk name)) (String.mk v),
        byteLen (name ++ ':' :: ' ' :: v) + 2, false, none) := by
  obtain ⟨hname_ne, hall⟩ := validFieldName_parts name hn
  have hshape : name ++ ':' :: ' ' :: v ++ '\r' :: '\n' :: [] =
      (name ++ ':' :: ' ' :: v) ++ '\r' :: '\n' :: [] := by
    simp [List.append_assoc]
  have hnameCR : findCRLF name = none :=
    findCRLF_of_no_lf name (fun c hc => isTokenChar_ne_lf c (hall c hc))
  have hinner : findCRLF (':' :: ' ' :: v) = none := by
    rw [findCRLF_cons, if_neg (by rintro ⟨h1, -⟩; exact absurd h1 (by decide)),
      findCRLF_cons, if_neg (by rintro ⟨h1, -⟩; exact absurd h1 (by decide)), hvn]
    rfl
  have hL : findCRLF (name ++ ':' :: ' ' :: v) = none :=
    findCRLF_append_none name (':' :: ' ' :: v) hnameCR hinner (by simp)
  have hfind : findCRLF (name ++ ':' :: ' ' :: v ++ '\r' :: '\n' :: []) =
      some (name ++ ':' :: ' ' :: v).length := by
    rw [hshape]
    exact findCRLF_append_crlf _ _ hL
  have hLne : (name ++ ':' :: ' ' :: v).length ≠ 0 := by
    simp [List.length_append]
  have htakeL : (name ++ ':' :: ' ' :: v ++ '\r' :: '\n' :: []).take
      (name ++ ':' :: ' ' :: v).length = name ++ ':' :: ' ' :: v := by
    rw [hshape]
    exact List.take_left _ _
  have hdec : utf8Decode? (headerLineBytes name v) =
      some (name ++ ':' :: ' ' :: v ++ '\r' :: '\n' :: []) := utf8Decode?_encode _
  rw [headersParse_of_decode h _ _ hdec]
  unfold Headers.parseChars
  rw [hfind]
  dsimp only
  rw [if_neg hLne, htakeL,
    trim_header_line name v hn hv hne]
  have hsplit : splitFirstColon (name ++ ':' :: ' ' :: v) = (name, some (' ' :: v)) :=
    splitFirstColon_append name (' ' :: v)
      (fun c hc => isTokenChar_ne_colon c (hall c hc))
  rw [hsplit]
  dsimp only
  rw [if_pos hn, trim_space_value v hv]

/-- Inserting a fresh key into the empty map. -/
theorem insertField_empty (k v : String) :
    Headers.insertField ⟨[]⟩ k v = ⟨[(k, v)]⟩ := by
  unfold Headers.insertField
  simp

/-- Appending to the single existing entry for a key. -/
theorem insertField_singleton (key a v : String) :
    Headers.insertField ⟨[(key, a)]⟩ key v = ⟨[(key, a ++ ", " ++ v)]⟩ := by
  unfold Headers.insertField
  simp

/-- Feeding raw lines equals folding the entry step over the values. -/
theorem feedLines_acc (name : List Char) (hn : isValidFieldName name = true) :
    ∀ (vs : List (List Char)) (h : Headers),
      (∀ v ∈ vs, trim v = v ∧ findCRLF v = none ∧ v ≠ []) →
      feedLines h name vs =
        vs.foldl (fun h v => h.insertField (lowerStr (String.mk name)) (String.mk v)) h := by
  intro vs
  induction vs with
  | nil => intro h _; rfl
  | cons v vs ih =>
    intro h hvs
    obtain ⟨hv, hvn, hne⟩ := hvs v (by simp)
    unfold feedLines
    rw [List.foldl_cons, List.foldl_cons,
      headersParse_line h name v hn hv hvn hne]
    exact ih _ (fun u hu => hvs u (by simp [hu]))

/-- Folding the entry step from a singleton map accumulates the values
joined with the comma-space separator, in arrival order. -/
theorem foldl_insert_acc (key : String) :
    ∀ (vs : List (List Char)) (a : String),
      vs.foldl (fun h v => h.insertField key (String.mk v)) (⟨[(key, a)]⟩ : Headers) =
        ⟨[(key, joinVals a vs)]⟩ := by
  intro vs
  induction vs with
  | nil => intro a; rfl
  | cons v vs ih =>
    intro a
    rw [List.foldl_cons, insertField_singleton, ih, joinVals]

/-- C7: starting from the empty map, a sequence of header lines
repeating one valid field name with clean values v0, v1, ... stores,
under the lower-cased name, exactly v0 followed by `, ` followed by v1
and so on in arrival order; `get` retrieves that accumulated value
under any capitalisation of the field name. -/
theorem c7_repeated_header_accumulation (name v0 : List Char) (vs : List (List Char))
    (key : String) (hn : isValidFieldName name = true)
    (hvals : ∀ v ∈ v0 :: vs, trim v = v ∧ findCRLF v = none ∧ v ≠ [])
    (hkey : lowerStr key = lowerStr (String.mk name)) :
    (feedLines Headers.new name (v0 :: vs)).entries =
      [(lowerStr (String.mk name), joinVals (String.mk v0) vs)] ∧
    (feedLines Headers.new name (v0 :: vs)).get key =
      some (joinVals (String.mk v0) vs) := by
  have hfeed := feedLines_acc name hn (v0 :: vs) Headers.new hvals
  have hrun : feedLines Headers.new name (v0 :: vs) =
      ⟨[(lowerStr (String.mk name), joinVals (String.mk v0) vs)]⟩ := by
    rw [hfeed, List.foldl_cons]
    have hnew : Headers.new = (⟨[]⟩ : Headers) := rfl
    rw [hnew, insertField_empty]
    exact foldl_insert_acc _ vs (String.mk v0)
  refine ⟨by rw [hrun], ?_⟩
  rw [hrun]
  unfold Headers.get
  rw [hkey]
  simp [List.find?]

/-- Witness for C7: the repository's own repeated `set-person` header
triple, looked up under a different capitalisation. -/
theorem c7_witness :
    (feedLines Headers.new ("set-person".data)
        ["lane-loves-go".data, "prime-loves-zig".data, "tj-loves-ocaml".data]).get
        "Set-Person" =
      some (joinVals (String.mk ("lane-loves-go".data))
        ["prime-loves-zig".data, "tj-loves-ocaml".data]) :=
  (c7_repeated_header_accumulation ("set-person".data) ("lane-loves-go".data)
    ["prime-loves-zig".data, "tj-loves-ocaml".data] "Set-Person"
    (by decide) (by decide) (by decide)).2
